import Mathlib

/-!
Verification of the simplified-state-interventions learning engine.

This file gives a shallow embedding, in Lean 4, of the tabular Q-learning
engine of the repository: the deterministic pseudo-random generator
(SimpleRNG in src/hooks/useQLearning.ts), the epsilon-greedy action choice
with its announcement protocol, the Bellman update, the Q-table reset, the
four intervention rules (src/services/interpretationRules.ts), the
intervention hook (src/hooks/useIntervention.ts) and the accounting part of
the episode controller (src/hooks/useGameEngine.ts).

JavaScript numbers are modelled as rationals: every quantity the engine
computes from its integer seeds and rational parameters stays rational, and
all comparisons performed by the code are decidable over the rationals.
Array indexing qtable[s][a] is modelled with List.getD, which returns a
default outside the array bounds; all theorems about entries carry explicit
in-range hypotheses, under which getD agrees with the JavaScript access.
-/

/-! ## List helpers -/

/-- Largest element of a list of rationals, 0 for the empty list.  This is
the meaning of the JavaScript idiom Math.max(...row) on the nonempty rows
the engine applies it to. -/
def qmax : List ℚ → ℚ
  | [] => 0
  | x :: xs => xs.foldl max x

/-- Writing cell i and reading a different cell j gives the old value. -/
theorem set_getD_ne {α : Type} (x d : α) :
    ∀ (l : List α) (i j : ℕ), i ≠ j → (l.set i x).getD j d = l.getD j d := by
  intro l
  induction l with
  | nil => intro i j _; rfl
  | cons a t ih =>
    intro i j hne
    cases i with
    | zero =>
      cases j with
      | zero => exact absurd rfl hne
      | succ m => simp [List.set]
    | succ n =>
      cases j with
      | zero => simp [List.set]
      | succ m =>
        simp only [List.set, List.getD_cons_succ]
        exact ih n m (by omega)

/-- Writing cell i and reading it back gives the written value, when i is
in range. -/
theorem set_getD_self {α : Type} (x d : α) :
    ∀ (l : List α) (i : ℕ), i < l.length → (l.set i x).getD i d = x := by
  intro l
  induction l with
  | nil => intro i h; simp at h
  | cons a t ih =>
    intro i h
    cases i with
    | zero => rfl
    | succ n =>
      simp only [List.set, List.getD_cons_succ]
      exact ih n (by simpa using h)

/-- On a row of exactly four entries, qmax is the maximum of the four
entries: the max ranges over all four actions. -/
theorem qmax_four :
    ∀ (l : List ℚ), l.length = 4 →
      qmax l = max (max (max (l.getD 0 0) (l.getD 1 0)) (l.getD 2 0)) (l.getD 3 0) := by
  intro l h
  match l with
  | [] => simp at h
  | [a] => simp at h
  | [a, b] => simp at h
  | [a, b, c] => simp at h
  | [a, b, c, d] => rfl
  | a :: b :: c :: d :: e :: t => simp at h

/-! ## RandomSource: the SimpleRNG class of useQLearning.ts -/

/-- Deterministic linear-congruential generator.  The TypeScript class
SimpleRNG holds a mutable numeric seed; here the seed is the whole state
and every draw returns the advanced generator. -/
structure SimpleRNG where
  seed : ℕ
  deriving DecidableEq, Repr

/-- One advance of the generator state:
seed = (seed * 9301 + 49297) % 233280. -/
def SimpleRNG.next (r : SimpleRNG) : SimpleRNG :=
  ⟨(r.seed * 9301 + 49297) % 233280⟩

/-- uniform(min, max): advance the seed once and scale seed / 233280 into
the interval.  Returns the drawn value and the advanced generator. -/
def SimpleRNG.uniform (r : SimpleRNG) (lo hi : ℚ) : ℚ × SimpleRNG :=
  let r' := r.next
  (lo + ((r'.seed : ℚ) / 233280) * (hi - lo), r')

/-- choice(array): draw uniform(0, array.length), floor it, and index the
array.  The index is always in range for the nonempty lists the engine
passes, because the drawn value is strictly below the length. -/
def SimpleRNG.choice (r : SimpleRNG) (xs : List ℕ) : ℕ × SimpleRNG :=
  let u := r.uniform 0 xs.length
  (xs.getD (Int.toNat ⌊u.1⌋) 0, u.2)

/-! ## Q-learning engine data model (useQLearning.ts, announcement version) -/

/-- A Q-table is a state-indexed list of action-indexed rows of utilities. -/
abbrev QTable := List (List ℚ)

/-- LearningParams from src/types/index.ts. -/
structure LearningParams where
  learningRate : ℚ
  gamma : ℚ
  epsilon : ℚ
  stateSize : ℕ
  actionSize : ℕ
  nrow : ℕ
  ncol : ℕ
  deriving DecidableEq, Repr

/-- Whether an announced action came from the exploration draw or from
greedy exploitation. -/
inductive ActionKind where
  | exploration
  | exploitation
  deriving DecidableEq, Repr

/-- DeterministicActionInfo: the record chooseAction stores for the state
it was asked about. -/
structure DeterministicActionInfo where
  action : ℕ
  type : ActionKind
  randomValue : ℚ
  state : ℕ
  timestamp : ℕ
  deriving DecidableEq, Repr

/-- The state owned by the useQLearning hook: the table, the parameters,
the shared RNG, the per-state announcement map (actionHistoryRef) and the
last announcement (currentActionInfo). -/
structure QLearningState where
  qtable : QTable
  params : LearningParams
  rng : SimpleRNG
  actionHistory : ℕ → Option DeterministicActionInfo
  currentActionInfo : Option DeterministicActionInfo

/-- getAvailableActions: boundary checks from the map dimensions held in
the learning parameters.  Actions are 0 Left, 1 Down, 2 Right, 3 Up. -/
def getAvailableActions (nrow ncol state : ℕ) : List ℕ :=
  let row := state / ncol
  let col := state % ncol
  (if col > 0 then [0] else []) ++
  (if row < nrow - 1 then [1] else []) ++
  (if col < ncol - 1 then [2] else []) ++
  (if row > 0 then [3] else [])

/-- getBestActionFromAvailable: among the available actions, find the
maximal Q-value, keep the actions achieving it, and let the RNG choose
among them (tie-breaking draw happens even when the arg-max is unique). -/
def getBestActionFromAvailable (qt : QTable) (state : ℕ) (avail : List ℕ)
    (rng : SimpleRNG) : ℕ × SimpleRNG :=
  if avail.isEmpty then (0, rng)
  else
    let qvals := avail.map (fun a => (a, (qt.getD state []).getD a 0))
    let maxQ := qmax (qvals.map (fun x => x.2))
    let best := (qvals.filter (fun x => decide (x.2 = maxQ))).map (fun x => x.1)
    rng.choice best

/-- chooseAction: epsilon-greedy selection with announcement.  Draws one
uniform value; below epsilon it explores by a choice among the available
actions, otherwise it exploits through getBestActionFromAvailable.  Either
way it overwrites the announcement for the state before returning the
action.  The timestamp argument stands for Date.now(). -/
def chooseAction (st : QLearningState) (state now : ℕ) : ℕ × QLearningState :=
  let avail := getAvailableActions st.params.nrow st.params.ncol state
  if avail.isEmpty then (0, st)
  else
    let u := st.rng.uniform 0 1
    let randomValue := u.1
    let r1 := u.2
    if randomValue < st.params.epsilon then
      let ac := r1.choice avail
      let info : DeterministicActionInfo :=
        ⟨ac.1, ActionKind.exploration, randomValue, state, now⟩
      (ac.1, { st with
        rng := ac.2
        actionHistory := fun s => if s = state then some info else st.actionHistory s
        currentActionInfo := some info })
    else
      let ac := getBestActionFromAvailable st.qtable state avail r1
      let info : DeterministicActionInfo :=
        ⟨ac.1, ActionKind.exploitation, randomValue, state, now⟩
      (ac.1, { st with
        rng := ac.2
        actionHistory := fun s => if s = state then some info else st.actionHistory s
        currentActionInfo := some info })

/-- getAnnouncedAction: pure lookup in the announcement map, no RNG draw. -/
def getAnnouncedAction (st : QLearningState) (state : ℕ) :
    Option DeterministicActionInfo :=
  st.actionHistory state

/-- updateQValue: the tabular Bellman update.  The maximum is taken with
qmax over the entire row of the new state. -/
def updateQValue (st : QLearningState) (state action : ℕ) (reward : ℚ)
    (newState : ℕ) : QLearningState :=
  let currentQ := (st.qtable.getD state []).getD action 0
  let maxNextQ := qmax (st.qtable.getD newState [])
  let newQValue := currentQ + st.params.learningRate *
    (reward + st.params.gamma * maxNextQ - currentQ)
  { st with qtable :=
      st.qtable.set state ((st.qtable.getD state []).set action newQValue) }

/-- resetQTable: reallocate a zero table of the configured dimensions and
clear the announcement map and the current announcement. -/
def resetQTable (st : QLearningState) : QLearningState :=
  { st with
    qtable := List.replicate st.params.stateSize
      (List.replicate st.params.actionSize 0)
    actionHistory := fun _ => none
    currentActionInfo := none }

/-! ## Concrete fixtures used by the witnesses -/

/-- A zero-filled table with the given numbers of states and actions. -/
def zeroTable (n m : ℕ) : QTable := List.replicate n (List.replicate m 0)

/-- The default learning parameters of the hook for the default 4 by 4
map: learningRate 0.8, gamma 0.95, epsilon 0.1. -/
def demoParams : LearningParams :=
  ⟨4/5, 19/20, 1/10, 16, 4, 4, 4⟩

/-- A fresh engine state over the default 4 by 4 map with the default
seed 123 and no announcements. -/
def demoState : QLearningState :=
  ⟨zeroTable 16 4, demoParams, ⟨123⟩, fun _ => none, none⟩

/-! ## C1: announcement agrees with the returned action -/

/-- C1.  For every state with at least one available action, immediately
after a single chooseAction call the announcement stored for that state is
a record whose action field equals exactly the action just returned. -/
theorem chooseAction_announced_action_matches (st : QLearningState) (s t : ℕ)
    (h : getAvailableActions st.params.nrow st.params.ncol s ≠ []) :
    ∃ info, getAnnouncedAction (chooseAction st s t).2 s = some info ∧
      info.action = (chooseAction st s t).1 := by
  have he : (getAvailableActions st.params.nrow st.params.ncol s).isEmpty = false := by
    cases hval : getAvailableActions st.params.nrow st.params.ncol s with
    | nil => exact absurd hval h
    | cons a l => rfl
  simp only [chooseAction, getAnnouncedAction, he, Bool.false_eq_true, if_false]
  split
  · simp
  · simp

/-- Witness for C1: on the fresh default state, state 0 has available
actions, and the stored announcement matches the returned action. -/
theorem chooseAction_announced_action_matches_witness :
    getAvailableActions demoState.params.nrow demoState.params.ncol 0 ≠ [] ∧
    ∃ info, getAnnouncedAction (chooseAction demoState 0 0).2 0 = some info ∧
      info.action = (chooseAction demoState 0 0).1 :=
  ⟨by decide, chooseAction_announced_action_matches demoState 0 0 (by decide)⟩

/-! ## C3: the Bellman update -/

/-- C3.  After updateQValue the updated entry equals
oldQ + alpha * (r + gamma * max(Q[newState]) - oldQ), the max being over
the whole row of the new state (all four actions when the row has four
entries), and every other cell is unchanged. -/
theorem updateQValue_bellman (st : QLearningState) (s a : ℕ) (r : ℚ) (ns : ℕ)
    (hs : s < st.qtable.length)
    (ha : a < (st.qtable.getD s []).length)
    (hrow : (st.qtable.getD ns []).length = 4) :
    (((updateQValue st s a r ns).qtable.getD s []).getD a 0 =
      (st.qtable.getD s []).getD a 0 + st.params.learningRate *
        (r + st.params.gamma * qmax (st.qtable.getD ns [])
          - (st.qtable.getD s []).getD a 0))
    ∧ (qmax (st.qtable.getD ns []) =
        max (max (max ((st.qtable.getD ns []).getD 0 0)
          ((st.qtable.getD ns []).getD 1 0)) ((st.qtable.getD ns []).getD 2 0))
          ((st.qtable.getD ns []).getD 3 0))
    ∧ (∀ s' a', s' ≠ s ∨ a' ≠ a →
        ((updateQValue st s a r ns).qtable.getD s' []).getD a' 0 =
          (st.qtable.getD s' []).getD a' 0) := by
  refine ⟨?_, qmax_four _ hrow, ?_⟩
  · simp only [updateQValue]
    rw [set_getD_self _ _ _ _ hs, set_getD_self _ _ _ _ ha]
  · intro s' a' hne
    simp only [updateQValue]
    by_cases hss : s' = s
    · subst hss
      have hne' : a' ≠ a := by
        rcases hne with hne | hne
        · exact absurd rfl hne
        · exact hne
      rw [set_getD_self _ _ _ _ hs, set_getD_ne _ _ _ _ _ (Ne.symm hne')]
    · rw [set_getD_ne _ _ _ _ _ (Ne.symm hss)]

/-- Witness for C3: updating entry (0, 2) with reward 10 on the fresh zero
table gives 0.8 * 10 = 8 there. -/
theorem updateQValue_bellman_witness :
    ((updateQValue demoState 0 2 10 1).qtable.getD 0 []).getD 2 0 = 8 := by
  have h := updateQValue_bellman demoState 0 2 10 1 (by decide) (by decide) (by decide)
  rw [h.1]
  norm_num [demoState, demoParams, zeroTable, qmax, List.replicate, List.foldl]

/-! ## C9: resetQTable -/

/-- C9.  After resetQTable the table is stateSize by actionSize with every
entry zero, and every announcement is cleared, so getAnnouncedAction
returns none for every state. -/
theorem resetQTable_spec (st : QLearningState) :
    (resetQTable st).qtable.length = st.params.stateSize
    ∧ (∀ row ∈ (resetQTable st).qtable, row.length = st.params.actionSize
        ∧ ∀ x ∈ row, x = (0 : ℚ))
    ∧ (∀ s, getAnnouncedAction (resetQTable st) s = none) := by
  refine ⟨by simp [resetQTable], ?_, fun s => rfl⟩
  intro row hrow
  have hr := List.eq_of_mem_replicate hrow
  subst hr
  exact ⟨by simp, fun x hx => List.eq_of_mem_replicate hx⟩

/-! ## InterventionRuleEngine (src/services/interpretationRules.ts) -/

/-- The named intervention rules. -/
inductive InterventionKind where
  | suggestion
  | reset
  | interrupt
  | impede
  deriving DecidableEq, Repr

/-- InterventionParams from src/types/index.ts: the arguments every rule
function receives. -/
structure InterventionParams where
  state : ℕ
  reward : ℚ
  newState : ℕ
  action : ℕ
  learningRate : ℚ
  gamma : ℚ
  nrow : ℕ
  ncol : ℕ
  deriving DecidableEq, Repr

/-- The directional action the suggestion rule infers from the
state-to-newState grid geometry.  On a one-row map only the horizontal
delta is considered; otherwise the axis with the larger absolute
coordinate delta wins, the column axis on ties going to the row axis. -/
def suggestionAction (p : InterventionParams) : ℕ :=
  let oldRow : ℤ := (p.state / p.ncol : ℕ)
  let oldCol : ℤ := (p.state % p.ncol : ℕ)
  let newRow : ℤ := (p.newState / p.ncol : ℕ)
  let newCol : ℤ := (p.newState % p.ncol : ℕ)
  if p.nrow = 1 then
    if newCol - oldCol > 0 then 2 else 0
  else
    let rowDiff := newRow - oldRow
    let colDiff := newCol - oldCol
    if |colDiff| > |rowDiff| then
      if colDiff > 0 then 2 else 0
    else
      if rowDiff > 0 then 1 else 3

/-- suggestionRule: update the inferred directional action with a fixed
reward term of 1 (the reward parameter is not read). -/
def suggestionRule (qt : QTable) (p : InterventionParams) : QTable :=
  let actionToUpdate := suggestionAction p
  let currentQ := (qt.getD p.state []).getD actionToUpdate 0
  let maxNextQ := qmax (qt.getD p.newState [])
  let newQValue := currentQ + p.learningRate * (1 + p.gamma * maxNextQ - currentQ)
  qt.set p.state ((qt.getD p.state []).set actionToUpdate newQValue)

/-- resetRule: the standard Bellman update using the announced action and
the actual reward. -/
def resetRule (qt : QTable) (p : InterventionParams) : QTable :=
  let currentQ := (qt.getD p.state []).getD p.action 0
  let maxNextQ := qmax (qt.getD p.newState [])
  let newQValue := currentQ + p.learningRate *
    (p.reward + p.gamma * maxNextQ - currentQ)
  qt.set p.state ((qt.getD p.state []).set p.action newQValue)

/-- interruptRule: returns the table unchanged. -/
def interruptRule (qt : QTable) (p : InterventionParams) : QTable :=
  qt

/-- impedeRule: penalize the announced action with a fixed term of -1 (the
reward parameter is not read). -/
def impedeRule (qt : QTable) (p : InterventionParams) : QTable :=
  let currentQ := (qt.getD p.state []).getD p.action 0
  let maxNextQ := qmax (qt.getD p.newState [])
  let newQValue := currentQ + p.learningRate * (-1 + p.gamma * maxNextQ - currentQ)
  qt.set p.state ((qt.getD p.state []).set p.action newQValue)

/-- applyInterventionRule: dispatch by rule name. -/
def applyInterventionRule (rule : InterventionKind) (qt : QTable)
    (p : InterventionParams) : QTable :=
  match rule with
  | .suggestion => suggestionRule qt p
  | .reset => resetRule qt p
  | .interrupt => interruptRule qt p
  | .impede => impedeRule qt p

/-! ## C6: interrupt is the identity -/

/-- C6.  For every Q-table and every parameter record the interrupt rule
returns its input table unchanged, entry for entry. -/
theorem interruptRule_identity (qt : QTable) (p : InterventionParams) :
    interruptRule qt p = qt :=
  rfl

/-! ## C4: the suggestion rule -/

/-- C4.  The suggestion rule picks Left or Right on a one-row grid; on a
multi-row grid it picks Right or Left exactly when the absolute column
delta exceeds the absolute row delta and Down or Up otherwise; it updates
that single entry by the fixed-reward-1 formula, independently of the
reward argument, and leaves every other cell unchanged. -/
theorem suggestionRule_spec (qt : QTable) (p : InterventionParams)
    (hs : p.state < qt.length)
    (ha : suggestionAction p < (qt.getD p.state []).length) :
    (p.nrow = 1 → suggestionAction p = 2 ∨ suggestionAction p = 0)
    ∧ (p.nrow ≠ 1 →
        ((|((p.newState % p.ncol : ℕ) : ℤ) - ((p.state % p.ncol : ℕ) : ℤ)| >
            |((p.newState / p.ncol : ℕ) : ℤ) - ((p.state / p.ncol : ℕ) : ℤ)| →
          suggestionAction p = 2 ∨ suggestionAction p = 0)
        ∧ (¬ (|((p.newState % p.ncol : ℕ) : ℤ) - ((p.state % p.ncol : ℕ) : ℤ)| >
            |((p.newState / p.ncol : ℕ) : ℤ) - ((p.state / p.ncol : ℕ) : ℤ)|) →
          suggestionAction p = 1 ∨ suggestionAction p = 3)))
    ∧ (((suggestionRule qt p).getD p.state []).getD (suggestionAction p) 0 =
        (qt.getD p.state []).getD (suggestionAction p) 0 + p.learningRate *
          (1 + p.gamma * qmax (qt.getD p.newState [])
            - (qt.getD p.state []).getD (suggestionAction p) 0))
    ∧ (∀ r', suggestionRule qt { p with reward := r' } = suggestionRule qt p)
    ∧ (∀ s' a', s' ≠ p.state ∨ a' ≠ suggestionAction p →
        ((suggestionRule qt p).getD s' []).getD a' 0 =
          (qt.getD s' []).getD a' 0) := by
  refine ⟨?_, ?_, ?_, ?_, ?_⟩
  · intro h1
    simp only [suggestionAction, h1, if_true]
    split
    · exact Or.inl rfl
    · exact Or.inr rfl
  · intro h1
    constructor
    · intro hgt
      simp only [suggestionAction, h1, if_false, if_pos hgt]
      split
      · exact Or.inl rfl
      · exact Or.inr rfl
    · intro hle
      simp only [suggestionAction, h1, if_false, if_neg hle]
      split
      · exact Or.inl rfl
      · exact Or.inr rfl
  · simp only [suggestionRule]
    rw [set_getD_self _ _ _ _ hs, set_getD_self _ _ _ _ ha]
  · intro r'
    obtain ⟨ps, pr, pns, pa, plr, pg, pnr, pnc⟩ := p
    rfl
  · intro s' a' hne
    simp only [suggestionRule]
    by_cases hss : s' = p.state
    · subst hss
      have hne' : a' ≠ suggestionAction p := by
        rcases hne with hne | hne
        · exact absurd rfl hne
        · exact hne
      rw [set_getD_self _ _ _ _ hs, set_getD_ne _ _ _ _ _ (Ne.symm hne')]
    · rw [set_getD_ne _ _ _ _ _ (Ne.symm hss)]

/-- Witness for C4: on the default 4 by 4 grid, relocating from state 0 to
state 2 (column delta 2, row delta 0) updates action Right, and a zero
table gains 0.8 there. -/
theorem suggestionRule_spec_witness :
    suggestionAction ⟨0, 7, 2, 1, 4/5, 19/20, 4, 4⟩ = 2 ∧
    ((suggestionRule (zeroTable 16 4) ⟨0, 7, 2, 1, 4/5, 19/20, 4, 4⟩).getD 0 []).getD 2 0 =
      4/5 := by
  have h := suggestionRule_spec (zeroTable 16 4) ⟨0, 7, 2, 1, 4/5, 19/20, 4, 4⟩
    (by decide) (by decide)
  have ha2 : suggestionAction ⟨0, 7, 2, 1, 4/5, 19/20, 4, 4⟩ = 2 := by decide
  have h3 := h.2.2.1
  rw [ha2] at h3
  norm_num [zeroTable, qmax, List.replicate, List.foldl] at h3
  exact ⟨ha2, h3⟩

/-! ## C5: the impede rule -/

/-- C5.  The impede rule updates only the announced action entry by the
fixed-reward-minus-1 formula, independently of the reward argument, and
leaves every other cell unchanged. -/
theorem impedeRule_spec (qt : QTable) (p : InterventionParams)
    (hs : p.state < qt.length)
    (ha : p.action < (qt.getD p.state []).length) :
    (((impedeRule qt p).getD p.state []).getD p.action 0 =
      (qt.getD p.state []).getD p.action 0 + p.learningRate *
        (-1 + p.gamma * qmax (qt.getD p.newState [])
          - (qt.getD p.state []).getD p.action 0))
    ∧ (∀ r', impedeRule qt { p with reward := r' } = impedeRule qt p)
    ∧ (∀ s' a', s' ≠ p.state ∨ a' ≠ p.action →
        ((impedeRule qt p).getD s' []).getD a' 0 =
          (qt.getD s' []).getD a' 0) := by
  refine ⟨?_, ?_, ?_⟩
  · simp only [impedeRule]
    rw [set_getD_self _ _ _ _ hs, set_getD_self _ _ _ _ ha]
  · intro r'
    obtain ⟨ps, pr, pns, pa, plr, pg, pnr, pnc⟩ := p
    rfl
  · intro s' a' hne
    simp only [impedeRule]
    by_cases hss : s' = p.state
    · subst hss
      have hne' : a' ≠ p.action := by
        rcases hne with hne | hne
        · exact absurd rfl hne
        · exact hne
      rw [set_getD_self _ _ _ _ hs, set_getD_ne _ _ _ _ _ (Ne.symm hne')]
    · rw [set_getD_ne _ _ _ _ _ (Ne.symm hss)]

/-- Witness for C5: the scenario of the claim.  With state 0, newState 1,
action 2, learning rate one half and gamma nine tenths on an all-zero
table, the impede rule yields -0.5 at entry (0, 2) and leaves all other
cells at zero. -/
theorem impedeRule_spec_witness :
    (((impedeRule (zeroTable 4 4) ⟨0, 0, 1, 2, 1/2, 9/10, 2, 2⟩).getD 0 []).getD 2 0 =
      -(1/2 : ℚ))
    ∧ (∀ s' a', s' ≠ 0 ∨ a' ≠ 2 →
        ((impedeRule (zeroTable 4 4) ⟨0, 0, 1, 2, 1/2, 9/10, 2, 2⟩).getD s' []).getD a' 0 =
          ((zeroTable 4 4).getD s' []).getD a' 0) := by
  have h := impedeRule_spec (zeroTable 4 4) ⟨0, 0, 1, 2, 1/2, 9/10, 2, 2⟩
    (by decide) (by decide)
  refine ⟨?_, h.2.2⟩
  rw [h.1]
  norm_num [zeroTable, qmax, List.replicate, List.foldl]

/-! ## The intervention hook (src/hooks/useIntervention.ts) -/

/-- InterventionRecord as constructed by applyIntervention (the fields the
code actually stores: the typed record plus action and actionType). -/
structure InterventionRecord where
  timestamp : ℕ
  fromState : ℕ
  toState : ℕ
  rule : InterventionKind
  reward : ℚ
  action : ℕ
  actionType : ActionKind
  deriving DecidableEq, Repr

/-- The per-rule counters held in interventionCountRef. -/
structure InterventionCounts where
  suggestion : ℕ
  reset : ℕ
  interrupt : ℕ
  impede : ℕ
  deriving DecidableEq, Repr

/-- Increment the counter of one rule. -/
def bumpCount (c : InterventionCounts) : InterventionKind → InterventionCounts
  | .suggestion => { c with suggestion := c.suggestion + 1 }
  | .reset => { c with reset := c.reset + 1 }
  | .interrupt => { c with interrupt := c.interrupt + 1 }
  | .impede => { c with impede := c.impede + 1 }

/-- The state owned by the useIntervention hook. -/
structure InterventionHookState where
  interventionRule : InterventionKind
  interventionHistory : List InterventionRecord
  isIntervening : Bool
  counts : InterventionCounts
  deriving DecidableEq, Repr

/-- The value applyIntervention hands back to its caller.  The TypeScript
function has return type void: every code path ends in a bare return (or
falls off the end of the body), so the caller always receives the same
value, undefined. -/
inductive VoidValue where
  | undef
  deriving DecidableEq, Repr

/-- applyIntervention: validates the state indices against the table
length, rejects reentrant calls, looks up the announced action for the
source state (aborting when none exists), then applies the selected rule,
commits the returned table, appends a record and bumps the rule counter.
The isIntervening flag is raised before the try block and lowered in the
finally block, so on every path that runs to completion it ends false;
rejected reentrant calls leave it as it was.  The getAnn argument stands
for the getAnnouncedAction closure the hook receives; now stands for
Date.now(); the optional additionalParams argument, which no caller in the
repository passes, is omitted. -/
def applyIntervention (qt : QTable) (ist : InterventionHookState)
    (getAnn : ℕ → Option DeterministicActionInfo)
    (learningRate gamma : ℚ) (nrow ncol : ℕ)
    (fromState toState : ℕ) (reward : ℚ) (now : ℕ) :
    (QTable × InterventionHookState) × VoidValue :=
  if fromState ≥ qt.length then ((qt, ist), .undef)
  else if toState ≥ qt.length then ((qt, ist), .undef)
  else if ist.isIntervening then ((qt, ist), .undef)
  else
    match getAnn fromState with
    | none => ((qt, { ist with isIntervening := false }), .undef)
    | some actionInfo =>
      let intendedAction := actionInfo.action
      let p : InterventionParams :=
        ⟨fromState, reward, toState, intendedAction, learningRate, gamma, nrow, ncol⟩
      let newQTable := applyInterventionRule ist.interventionRule qt p
      let record : InterventionRecord :=
        ⟨now, fromState, toState, ist.interventionRule, reward, intendedAction,
          actionInfo.type⟩
      ((newQTable,
        { ist with
          interventionHistory := ist.interventionHistory ++ [record]
          counts := bumpCount ist.counts ist.interventionRule
          isIntervening := false }), .undef)

/-! ## C2: invalid invocations of applyIntervention -/

/-- A fresh intervention hook state using the impede rule. -/
def hookState0 : InterventionHookState :=
  ⟨InterventionKind.impede, [], false, ⟨0, 0, 0, 0⟩⟩

/-- An announcement map with an exploitation announcement of action 2 for
state 0 and nothing else. -/
def announced0 : ℕ → Option DeterministicActionInfo :=
  fun s => if s = 0 then some ⟨2, ActionKind.exploitation, 1/2, 0, 0⟩ else none

/-- Counterexample for C2.  The claim says invalid invocations are
reported to the caller via a distinguishable failure result.  They are
not: the function returns void on every path, so a rejected call (here
fromState 5 on a 4-state table, a genuine no-op) hands the caller exactly
the same value as a successful call that changes the table and appends a
record.  Failures are only logged to the console. -/
theorem applyIntervention_failure_result_counterexample :
    (5 ≥ (zeroTable 4 4).length
      ∧ (applyIntervention (zeroTable 4 4) hookState0 announced0 (1/2) (9/10)
          2 2 5 1 0 0).1 = (zeroTable 4 4, hookState0))
    ∧ ((applyIntervention (zeroTable 4 4) hookState0 announced0 (1/2) (9/10)
          2 2 0 1 0 0).1.1 ≠ zeroTable 4 4
      ∧ (applyIntervention (zeroTable 4 4) hookState0 announced0 (1/2) (9/10)
          2 2 0 1 0 0).1.2.interventionHistory ≠ [])
    ∧ (applyIntervention (zeroTable 4 4) hookState0 announced0 (1/2) (9/10)
          2 2 5 1 0 0).2 =
      (applyIntervention (zeroTable 4 4) hookState0 announced0 (1/2) (9/10)
          2 2 0 1 0 0).2 := by
  refine ⟨⟨by decide, rfl⟩, ⟨?_, ?_⟩, rfl⟩
  · intro hcontra
    have h2 := congrArg (fun t => (List.getD t 0 []).getD 2 (0 : ℚ)) hcontra
    simp only [applyIntervention, announced0, hookState0, applyInterventionRule,
      impedeRule] at h2
    norm_num [zeroTable, qmax, List.replicate, List.foldl] at h2
  · simp [applyIntervention, announced0, hookState0, zeroTable, List.replicate]

/-- C2 as amended.  When fromState or toState is out of range, or an
intervention is already in flight, or no announced action exists for
fromState, applyIntervention is a no-op on the Q-table, the intervention
history and the rule counters; but the failure is only logged, not
reported to the caller, whose received value is the same void value a
successful call produces. -/
theorem applyIntervention_invalid_noop (qt : QTable)
    (ist : InterventionHookState) (getAnn : ℕ → Option DeterministicActionInfo)
    (learningRate gamma : ℚ) (nrow ncol fromState toState : ℕ) (reward : ℚ)
    (now : ℕ)
    (h : fromState ≥ qt.length ∨ toState ≥ qt.length
      ∨ ist.isIntervening = true ∨ getAnn fromState = none) :
    ((applyIntervention qt ist getAnn learningRate gamma nrow ncol fromState
        toState reward now).1.1 = qt
    ∧ (applyIntervention qt ist getAnn learningRate gamma nrow ncol fromState
        toState reward now).1.2.interventionHistory = ist.interventionHistory
    ∧ (applyIntervention qt ist getAnn learningRate gamma nrow ncol fromState
        toState reward now).1.2.counts = ist.counts)
    ∧ (applyIntervention qt ist getAnn learningRate gamma nrow ncol fromState
        toState reward now).2 = VoidValue.undef := by
  simp only [applyIntervention]
  split
  · exact ⟨⟨rfl, rfl, rfl⟩, trivial⟩
  · split
    · exact ⟨⟨rfl, rfl, rfl⟩, trivial⟩
    · split
      · exact ⟨⟨rfl, rfl, rfl⟩, trivial⟩
      · rename_i h1 h2 h3
        cases hAnn : getAnn fromState with
        | none => exact ⟨⟨rfl, rfl, rfl⟩, trivial⟩
        | some info =>
          exfalso
          rcases h with h | h | h | h
          · exact h1 h
          · exact h2 h
          · exact h3 h
          · rw [hAnn] at h; exact Option.noConfusion h

/-- Witness for the amended C2: the rejected call with fromState 5 on the
4-state table leaves table, history and counters untouched and returns the
void value. -/
theorem applyIntervention_invalid_noop_witness :
    ((applyIntervention (zeroTable 4 4) hookState0 announced0 (1/2) (9/10)
        2 2 5 1 0 0).1.1 = zeroTable 4 4
    ∧ (applyIntervention (zeroTable 4 4) hookState0 announced0 (1/2) (9/10)
        2 2 5 1 0 0).1.2.interventionHistory = hookState0.interventionHistory
    ∧ (applyIntervention (zeroTable 4 4) hookState0 announced0 (1/2) (9/10)
        2 2 5 1 0 0).1.2.counts = hookState0.counts)
    ∧ (applyIntervention (zeroTable 4 4) hookState0 announced0 (1/2) (9/10)
        2 2 5 1 0 0).2 = VoidValue.undef :=
  applyIntervention_invalid_noop (zeroTable 4 4) hookState0 announced0 (1/2)
    (9/10) 2 2 5 1 0 0 (Or.inl (by decide))

/-! ## C10: every chooseAction call advances the RNG by exactly two draws -/

/-- C10.  On a state with at least one available action, chooseAction
advances the shared generator by exactly two draws: the uniform draw for
the exploration decision and the choice draw for the action selection, in
the exploration branch and in the exploitation branch alike (the
tie-breaking choice draw happens even when the arg-max is unique). -/
theorem chooseAction_two_rng_draws (st : QLearningState) (s t : ℕ)
    (h : getAvailableActions st.params.nrow st.params.ncol s ≠ []) :
    ((chooseAction st s t).2).rng = st.rng.next.next := by
  have he : (getAvailableActions st.params.nrow st.params.ncol s).isEmpty = false := by
    cases hval : getAvailableActions st.params.nrow st.params.ncol s with
    | nil => exact absurd hval h
    | cons a l => rfl
  simp only [chooseAction, he, Bool.false_eq_true, if_false]
  split
  · rfl
  · simp only [getBestActionFromAvailable, he, Bool.false_eq_true, if_false]
    rfl

/-- Witness for C10: on the fresh default state the generator after one
chooseAction call is the doubly advanced generator. -/
theorem chooseAction_two_rng_draws_witness :
    ((chooseAction demoState 0 0).2).rng = demoState.rng.next.next :=
  chooseAction_two_rng_draws demoState 0 0 (by decide)

/-! ## C8: determinism of chooseAction sequences -/

/-- The action returned by chooseAction and the evolution of the table,
the parameters and the generator depend only on the table, the parameters
and the generator: neither the announcement history, nor the last
announcement, nor the timestamp influences them. -/
theorem chooseAction_congr (st1 st2 : QLearningState) (s t1 t2 : ℕ)
    (hq : st1.qtable = st2.qtable) (hp : st1.params = st2.params)
    (hr : st1.rng = st2.rng) :
    (chooseAction st1 s t1).1 = (chooseAction st2 s t2).1
    ∧ ((chooseAction st1 s t1).2).qtable = ((chooseAction st2 s t2).2).qtable
    ∧ ((chooseAction st1 s t1).2).params = ((chooseAction st2 s t2).2).params
    ∧ ((chooseAction st1 s t1).2).rng = ((chooseAction st2 s t2).2).rng := by
  obtain ⟨q1, p1, r1, a1, c1⟩ := st1
  obtain ⟨q2, p2, r2, a2, c2⟩ := st2
  simp only at hq hp hr
  subst hq
  subst hp
  subst hr
  simp only [chooseAction]
  split
  · exact ⟨rfl, rfl, rfl, rfl⟩
  · split
    · exact ⟨rfl, rfl, rfl, rfl⟩
    · exact ⟨rfl, rfl, rfl, rfl⟩

/-- Issue a sequence of chooseAction calls, threading the hook state, and
collect the returned actions.  The per-call timestamps are supplied as a
list consumed one element per call. -/
def runChooseActions : QLearningState → List ℕ → List ℕ → List ℕ
  | _, [], _ => []
  | st, s :: rest, ts =>
      let r := chooseAction st s (ts.headD 0)
      r.1 :: runChooseActions r.2 rest ts.tail

/-- A run of chooseAction calls depends only on the table, the parameters
and the generator of the starting state. -/
theorem runChooseActions_congr (states : List ℕ) :
    ∀ (st1 st2 : QLearningState) (ts1 ts2 : List ℕ),
      st1.qtable = st2.qtable → st1.params = st2.params → st1.rng = st2.rng →
      runChooseActions st1 states ts1 = runChooseActions st2 states ts2 := by
  induction states with
  | nil => intro st1 st2 ts1 ts2 _ _ _; rfl
  | cons s rest ih =>
    intro st1 st2 ts1 ts2 hq hp hr
    have h := chooseAction_congr st1 st2 s (ts1.headD 0) (ts2.headD 0) hq hp hr
    simp only [runChooseActions]
    exact congrArg₂ List.cons h.1 (ih _ _ _ _ h.2.1 h.2.2.1 h.2.2.2)

/-- C8.  Two independent runs that build the generator from the same seed
and issue the same sequence of chooseAction calls on identical Q-tables
and parameters produce identical action sequences, whatever their
announcement histories, current announcements and call timestamps are:
the action sequence is a function of seed, call sequence, table and
parameters alone. -/
theorem chooseAction_sequence_deterministic (seed : ℕ) (qt : QTable)
    (p : LearningParams) (states ts1 ts2 : List ℕ)
    (a1 a2 : ℕ → Option DeterministicActionInfo)
    (c1 c2 : Option DeterministicActionInfo) :
    runChooseActions ⟨qt, p, ⟨seed⟩, a1, c1⟩ states ts1 =
      runChooseActions ⟨qt, p, ⟨seed⟩, a2, c2⟩ states ts2 :=
  runChooseActions_congr states _ _ _ _ rfl rfl rfl

/-! ## EpisodeController accounting (src/hooks/useGameEngine.ts)

The engine functions below model the synchronous part of
executePendingAction and setAgentStateManually: the agent-state update,
the episode accounting and the episode-termination statistics.  The work
those functions delegate to collaborators is modelled separately above
(updateQValue for the Bellman update of a step, applyIntervention for the
rule application of an intervention), and the work they schedule with
setTimeout (episode auto-reset, the next announcement request, lowering
the isIntervening flag) is asynchronous and not part of the synchronous
transition. -/

/-- AgentState from src/types/index.ts plus the nextAction field the
engine file adds. -/
structure AgentState where
  currentState : ℕ
  totalReward : ℚ
  steps : ℕ
  lastReward : ℚ
  isDone : Bool
  nextAction : Option ℕ
  deriving DecidableEq, Repr

/-- GameStats from src/types/index.ts. -/
structure GameStats where
  episode : ℕ
  totalReward : ℚ
  steps : ℕ
  lastReward : ℚ
  interventions : ℕ
  successRate : ℚ
  deriving DecidableEq, Repr

/-- The pending action stored in pendingActionRef. -/
structure PendingAction where
  state : ℕ
  action : ℕ
  timestamp : ℕ
  deriving DecidableEq, Repr

/-- The map description and reward schedule of GameConfig; the schedule
triple is (hole, goal, frozen). -/
structure GameConfig where
  mapDesc : List (List Char)
  rewardSchedule : ℚ × ℚ × ℚ
  deriving DecidableEq, Repr

/-- Number of columns: the length of the first map row. -/
def GameConfig.ncol (cfg : GameConfig) : ℕ := (cfg.mapDesc.headD []).length

/-- Number of rows of the map. -/
def GameConfig.nrow (cfg : GameConfig) : ℕ := cfg.mapDesc.length

/-- The cell character at a state, through the row and column of
getAgentPosition. -/
def cellTypeAt (cfg : GameConfig) (state : ℕ) : Char :=
  (cfg.mapDesc.getD (state / cfg.ncol) []).getD (state % cfg.ncol) 'F'

/-- isTerminalState: the cell is a hole or the goal. -/
def isTerminalState (cfg : GameConfig) (state : ℕ) : Bool :=
  cellTypeAt cfg state == 'H' || cellTypeAt cfg state == 'G'

/-- calculateReward: schedule entry selected by the cell type, Start and
Frozen both paying the frozen reward. -/
def calculateReward (cfg : GameConfig) (state : ℕ) : ℚ :=
  if cellTypeAt cfg state = 'H' then cfg.rewardSchedule.1
  else if cellTypeAt cfg state = 'G' then cfg.rewardSchedule.2.1
  else cfg.rewardSchedule.2.2

/-- The switch over the action in executePendingAction: move with
boundary checks, staying in place on a blocked move. -/
def moveState (cfg : GameConfig) (state action : ℕ) : ℕ :=
  match action with
  | 0 => if state % cfg.ncol > 0 then state - 1 else state
  | 1 => if state / cfg.ncol < cfg.nrow - 1 then state + cfg.ncol else state
  | 2 => if state % cfg.ncol < cfg.ncol - 1 then state + 1 else state
  | 3 => if state / cfg.ncol > 0 then state - cfg.ncol else state
  | _ => state

/-- The state owned by the useGameEngine hook: agent, flags, running
episode accumulators, success counter, global statistics and the pending
action. -/
structure EngineState where
  agent : AgentState
  isRunning : Bool
  isPaused : Bool
  isIntervening : Bool
  isTraining : Bool
  episodeReward : ℚ
  episodeSteps : ℕ
  episodeInterventions : ℕ
  successCount : ℕ
  stats : GameStats
  pending : Option PendingAction
  deriving DecidableEq, Repr

/-- executePendingAction: execute the stored pending action for the
current state (no-op without a matching pending action or on a finished
episode), move, collect the reward, always add it to the agent total and
the episode total, advance both step counters, and on a terminal landing
update the success counter and the global statistics. -/
def executePendingAction (cfg : GameConfig) (st : EngineState) : EngineState :=
  match st.pending with
  | none => st
  | some pa =>
    if pa.state ≠ st.agent.currentState ∨ st.agent.isDone = true then st
    else
      let newState := moveState cfg st.agent.currentState pa.action
      let reward := calculateReward cfg newState
      let isDone := isTerminalState cfg newState
      let agent' : AgentState :=
        ⟨newState, st.agent.totalReward + reward, st.agent.steps + 1, reward,
          isDone, none⟩
      let st1 := { st with
        agent := agent'
        episodeReward := st.episodeReward + reward
        episodeSteps := st.episodeSteps + 1
        pending := none }
      if isDone then
        let successCount' : ℕ :=
          if cellTypeAt cfg newState = 'G' then st1.successCount + 1
          else st1.successCount
        let totalEpisodes := st1.stats.episode + 1
        let stats' : GameStats :=
          ⟨totalEpisodes, st1.stats.totalReward + st1.episodeReward,
            st1.stats.steps + st1.episodeSteps, reward,
            st1.stats.interventions + st1.episodeInterventions,
            (successCount' : ℚ) / (totalEpisodes : ℚ)⟩
        { st1 with successCount := successCount', stats := stats' }
      else st1

/-- setAgentStateManually: the intervention handler.  Rejects reentrant
calls, raises the isIntervening flag, hands the rule application to the
intervention hook, relocates the agent, adds the reward to the agent total
only when the target is not a hole and likewise to the episode total,
leaves both step counters alone, counts the intervention, and on a
terminal target updates the success counter and the global statistics and
pauses a running game. -/
def setAgentStateManually (cfg : GameConfig) (st : EngineState)
    (newState : ℕ) : EngineState :=
  if st.isIntervening = true then st
  else
    let reward := calculateReward cfg newState
    let isDone := isTerminalState cfg newState
    let ct := cellTypeAt cfg newState
    let newTotalReward :=
      if ct = 'G' then st.agent.totalReward + reward
      else if ct ≠ 'H' then st.agent.totalReward + reward
      else st.agent.totalReward
    let agent' : AgentState :=
      { st.agent with
        currentState := newState
        totalReward := newTotalReward
        lastReward := reward
        isDone := isDone
        nextAction := none }
    let st1 := { st with
      agent := agent'
      isIntervening := true
      pending := none
      episodeReward :=
        if ct ≠ 'H' then st.episodeReward + reward else st.episodeReward
      episodeInterventions := st.episodeInterventions + 1 }
    if isDone then
      let successCount' : ℕ :=
        if ct = 'G' then st1.successCount + 1 else st1.successCount
      let totalEpisodes := st1.stats.episode + 1
      let stats' : GameStats :=
        ⟨totalEpisodes, st1.stats.totalReward + st1.episodeReward,
          st1.stats.steps + st1.episodeSteps, reward,
          st1.stats.interventions + st1.episodeInterventions,
          if totalEpisodes > 0 then (successCount' : ℚ) / (totalEpisodes : ℚ)
          else 0⟩
      let st2 := { st1 with successCount := successCount', stats := stats' }
      if st1.isRunning = true then { st2 with isRunning := false, isPaused := true }
      else st2
    else st1

/-! ## C7: intervention accounting versus normal-step accounting -/

/-- A 2 by 2 map: Start, Frozen / Hole, Goal, with schedule hole -10,
goal 10, frozen 0. -/
def cfg0 : GameConfig := ⟨[['S', 'F'], ['H', 'G']], (-10, 10, 0)⟩

/-- A fresh engine at the start state with a pending Down action
announced for state 0. -/
def engine0 : EngineState :=
  ⟨⟨0, 0, 0, 0, false, some 1⟩, true, false, false, true, 0, 0, 0, 0,
    ⟨0, 0, 0, 0, 0, 0⟩, some ⟨0, 1, 0⟩⟩

/-- Counterexample for C7.  The claim says a successful intervention adds
the same reward to totalReward and to the episode reward as a normal step
landing on the same state, including when that state is a Hole, and
advances the step counter the same way.  On the 2 by 2 map, the normal
step Down from state 0 and an intervention relocating from state 0 both
land on state 2, a Hole with reward -10: the step adds -10 to both reward
accumulators and advances the step counter, while the intervention leaves
all three untouched. -/
theorem intervention_accounting_counterexample :
    (executePendingAction cfg0 engine0).agent.currentState = 2
    ∧ (setAgentStateManually cfg0 engine0 2).agent.currentState = 2
    ∧ cellTypeAt cfg0 2 = 'H'
    ∧ (executePendingAction cfg0 engine0).agent.totalReward = -10
    ∧ (setAgentStateManually cfg0 engine0 2).agent.totalReward = 0
    ∧ (executePendingAction cfg0 engine0).episodeReward = -10
    ∧ (setAgentStateManually cfg0 engine0 2).episodeReward = 0
    ∧ (executePendingAction cfg0 engine0).agent.steps = 1
    ∧ (setAgentStateManually cfg0 engine0 2).agent.steps = 0 := by
  norm_num [executePendingAction, setAgentStateManually, cfg0, engine0,
    moveState, calculateReward, isTerminalState, cellTypeAt,
    GameConfig.ncol, GameConfig.nrow]
  all_goals decide

/-- C7 as amended.  A successful intervention relocating the agent to
newState matches a normal step landing on newState in the relocation
itself (currentState, lastReward, isDone) and in the success accounting of
goal and hole termination, but the reward joins totalReward and the
episode reward only when newState is not a Hole, and neither the agent
step counter nor the episode step counter advances; the intervention
counter advances instead. -/
theorem intervention_accounting_amended (cfg : GameConfig) (st : EngineState)
    (pa : PendingAction) (newState : ℕ)
    (hiv : st.isIntervening = false)
    (hpend : st.pending = some pa)
    (hpa : pa.state = st.agent.currentState)
    (hdone : st.agent.isDone = false)
    (hland : moveState cfg st.agent.currentState pa.action = newState) :
    (setAgentStateManually cfg st newState).agent.currentState =
      (executePendingAction cfg st).agent.currentState
    ∧ (setAgentStateManually cfg st newState).agent.lastReward =
      (executePendingAction cfg st).agent.lastReward
    ∧ (setAgentStateManually cfg st newState).agent.isDone =
      (executePendingAction cfg st).agent.isDone
    ∧ (setAgentStateManually cfg st newState).agent.steps = st.agent.steps
    ∧ (executePendingAction cfg st).agent.steps = st.agent.steps + 1
    ∧ (setAgentStateManually cfg st newState).episodeSteps = st.episodeSteps
    ∧ (cellTypeAt cfg newState ≠ 'H' →
        (setAgentStateManually cfg st newState).agent.totalReward =
          (executePendingAction cfg st).agent.totalReward
        ∧ (setAgentStateManually cfg st newState).episodeReward =
          (executePendingAction cfg st).episodeReward)
    ∧ (cellTypeAt cfg newState = 'H' →
        (setAgentStateManually cfg st newState).agent.totalReward =
          st.agent.totalReward
        ∧ (setAgentStateManually cfg st newState).episodeReward =
          st.episodeReward
        ∧ (executePendingAction cfg st).agent.totalReward =
          st.agent.totalReward + calculateReward cfg newState)
    ∧ (setAgentStateManually cfg st newState).successCount =
      (executePendingAction cfg st).successCount
    ∧ (setAgentStateManually cfg st newState).episodeInterventions =
      st.episodeInterventions + 1 := by
  subst hland
  have hguard : ¬ (pa.state ≠ st.agent.currentState ∨ st.agent.isDone = true) := by
    simp [hpa, hdone]
  simp only [executePendingAction, setAgentStateManually, hpend, hiv,
    Bool.false_eq_true, if_false, if_neg hguard]
  split_ifs <;> simp_all [isTerminalState]

/-- Witness for the amended C7: relocating to the frozen state 1 matches
the normal Right step in total reward while leaving the step counter at
zero where the step advances it to one. -/
theorem intervention_accounting_amended_witness :
    (setAgentStateManually cfg0 { engine0 with pending := some ⟨0, 2, 0⟩ } 1).agent.steps = 0
    ∧ (executePendingAction cfg0 { engine0 with pending := some ⟨0, 2, 0⟩ }).agent.steps = 1
    ∧ (setAgentStateManually cfg0 { engine0 with pending := some ⟨0, 2, 0⟩ } 1).agent.totalReward =
      (executePendingAction cfg0 { engine0 with pending := some ⟨0, 2, 0⟩ }).agent.totalReward := by
  have h := intervention_accounting_amended cfg0
    { engine0 with pending := some ⟨0, 2, 0⟩ } ⟨0, 2, 0⟩ 1 rfl rfl rfl rfl
    (by decide)
  exact ⟨h.2.2.2.1, h.2.2.2.2.1, (h.2.2.2.2.2.2.1 (by decide)).1⟩
